import Mathlib

/-!
Shallow embedding of the gengo classification-and-aggregation engine.

Sources:
* `src/gengo/src/handlers/git.rs` — `Handler::analyze`, `Handler::analyze_index`,
  `Handler::analyze_blob`, `Results::from_index`.
* `src/gengo/src/analysis/mod.rs` — `Analysis::iter`, `Analysis::summary_with`.

Byte strings (`BString`) are modelled as `String` (concatenation of byte strings
corresponds to concatenation of strings); blob contents are `List Nat` (bytes);
object ids are `Nat`.  External collaborators (the language catalog, the
heuristic detectors, the gitattributes pattern-matching engine, the platform
path conversion and the repository object store) are parameters of the model,
exactly as the spec places them out of scope.
-/

namespace Gengo

/-- Language category (`Category` enum referenced by `analyze_blob`). -/
inductive Category : Type where
  | programming : Category
  | markup : Category
  | data : Category
  | query : Category
  | prose : Category
deriving DecidableEq, Repr

/-- `Language {name, category}` from the data model. -/
structure Language : Type where
  name : String
  category : Category
deriving DecidableEq, Repr

/-- `crate::Entry` — the classification outcome for one file. -/
structure Entry : Type where
  language : Language
  size : Nat
  detectable : Bool
  generated : Bool
  documentation : Bool
  vendored : Bool
deriving DecidableEq, Repr

/-- `gix::attrs::StateRef` — the state of one git attribute at a path. -/
inductive StateRef : Type where
  | isSet : StateRef
  | unset : StateRef
  | value : String → StateRef
  | unspecified : StateRef
deriving DecidableEq, Repr

/-- `gix::attrs::StateRef::is_set` — true exactly for the `Set` state. -/
def StateRef.is_set : StateRef → Bool
  | StateRef.isSet => true
  | _ => false

/-- The five selected attribute states for one path, in the order registered by
`GitState::new`: `gengo-language`, `gengo-generated`, `gengo-documentation`,
`gengo-vendored`, `gengo-detectable`. -/
structure AttrState : Type where
  lang : StateRef
  generated : StateRef
  documentation : StateRef
  vendored : StateRef
  detectable : StateRef
deriving DecidableEq, Repr

/-- The per-slot filter in `analyze_blob`:
`(info.assignment.state != StateRef::Unspecified).then_some(info)`. -/
def optAttr (s : StateRef) : Option StateRef :=
  if s = StateRef.unspecified then none else some s

/-- The language catalog (`self.analyzers`): lookup by normalized name
(`get`) and the heuristic picker (`pick`, bounded by the read limit). -/
structure Analyzers : Type where
  get : String → Option Language
  pick : String → List Nat → Nat → Option Language

/-- The classification environment carried by the handler: the language
catalog, the content read limit and the three facet heuristics. -/
structure Handler : Type where
  analyzers : Analyzers
  read_limit : Nat
  is_generated : String → List Nat → Bool
  is_documentation : String → List Nat → Bool
  is_vendored : String → List Nat → Bool

/-- `v.replace('-', " ")` — replace every hyphen character by a space. -/
def replaceHyphens (s : String) : String :=
  String.mk (s.data.map fun ch => if ch = '-' then ' ' else ch)

/-- The `lang_override` binding of `analyze_blob`: the `gengo-language`
attribute, when it carries a value, has hyphens replaced by spaces and is
looked up in the catalog. -/
def Handler.lang_override (h : Handler) (attrs : AttrState) : Option Language :=
  ((optAttr attrs.lang).bind fun s =>
    match s with
    | StateRef.value v => some (replaceHyphens v)
    | _ => none).bind h.analyzers.get

/-- The `generated` binding of `analyze_blob`: the decoded explicit override
when present, else the heuristic. -/
def Handler.facetGenerated (h : Handler) (filepath : String) (contents : List Nat)
    (attrs : AttrState) : Bool :=
  ((optAttr attrs.generated).map StateRef.is_set).getD
    (h.is_generated filepath contents)

/-- The `documentation` binding of `analyze_blob`: the decoded explicit
override when present, else the heuristic. -/
def Handler.facetDocumentation (h : Handler) (filepath : String) (contents : List Nat)
    (attrs : AttrState) : Bool :=
  ((optAttr attrs.documentation).map StateRef.is_set).getD
    (h.is_documentation filepath contents)

/-- The `vendored` binding of `analyze_blob`: the decoded explicit override
when present, else `is_submodule || is_vendored(..)`. -/
def Handler.facetVendored (h : Handler) (filepath : String) (contents : List Nat)
    (attrs : AttrState) (is_submodule : Bool) : Bool :=
  ((optAttr attrs.vendored).map StateRef.is_set).getD
    (is_submodule || h.is_vendored filepath contents)

/-- The first `detectable` binding of `analyze_blob`: the category rule. -/
def derivedDetectable (category : Category)
    (generated documentation vendored : Bool) : Bool :=
  match category with
  | Category.data | Category.prose => false
  | Category.programming | Category.markup | Category.query =>
    !(generated || documentation || vendored)

/-- The second `detectable` binding of `analyze_blob`: the decoded explicit
override when present, else the derived value. -/
def Handler.facetDetectable (h : Handler) (attrs : AttrState) (derived : Bool) : Bool :=
  ((optAttr attrs.detectable).map StateRef.is_set).getD derived

/-- `Handler::analyze_blob`, after the blob contents have been retrieved and
the attribute states at the path resolved: returns the classification
outcome, or `none` when no language can be determined. -/
def Handler.analyze_blob (h : Handler) (filepath : String) (contents : List Nat)
    (attrs : AttrState) (is_submodule : Bool) : Option Entry :=
  let language := (h.lang_override attrs).orElse fun _ =>
    h.analyzers.pick filepath contents h.read_limit
  match language with
  | none => none
  | some language =>
    let generated := h.facetGenerated filepath contents attrs
    let documentation := h.facetDocumentation filepath contents attrs
    let vendored := h.facetVendored filepath contents attrs is_submodule
    let detectable := h.facetDetectable attrs
      (derivedDetectable language.category generated documentation vendored)
    some {
      language := language
      size := contents.length
      detectable := detectable
      generated := generated
      documentation := documentation
      vendored := vendored
    }

/-- `gix::index::entry::Mode`, restricted to the modes `from_index` inspects. -/
inductive Mode : Type where
  | file : Mode
  | fileExecutable : Mode
  | commit : Mode
  | other : Mode
deriving DecidableEq, Repr

/-- One `gix::index::Entry`, reduced to the fields the handler reads
(`path_in(path_storage)`, `id`, `mode`). -/
structure IndexEntry : Type where
  path : String
  id : Nat
  mode : Mode
deriving DecidableEq, Repr

/-- `BlobEntry` — an index entry together with its classification slot. -/
structure BlobEntry : Type where
  index_entry : IndexEntry
  result : Option Entry
deriving DecidableEq, Repr

/-- `Results` — the result of analyzing one repository or submodule: the root
(empty for the top-level repository) and the entry list.  `path_storage` is
folded into the entries' paths. -/
structure Results : Type where
  root : String
  entries : List BlobEntry
deriving DecidableEq, Repr

/-- A repository handle, as observed by the handler: the index of a tree, the
object store (`find_blob`; `none` models a failed blob lookup), the attribute
stack outcome per path, the `.gitmodules`-declared submodules (`none` models a
submodule that fails to open), and commit-to-tree peeling. -/
inductive Repo : Type where
  | mk :
    (index_from_tree : Nat → List IndexEntry) →
    (find_blob : Nat → Option (List Nat)) →
    (attrs_at : String → AttrState) →
    (submodules : List (String × Option Repo)) →
    (find_commit_tree : Nat → Option Nat) →
    Repo

def Repo.index_from_tree : Repo → Nat → List IndexEntry
  | Repo.mk f _ _ _ _ => f

def Repo.find_blob : Repo → Nat → Option (List Nat)
  | Repo.mk _ f _ _ _ => f

def Repo.attrs_at : Repo → String → AttrState
  | Repo.mk _ _ f _ _ => f

def Repo.submodules : Repo → List (String × Option Repo)
  | Repo.mk _ _ _ s _ => s

def Repo.find_commit_tree : Repo → Nat → Option Nat
  | Repo.mk _ _ _ _ f => f

/-- The platform path conversion `gix::path::try_from_bstr`; `none` models a
byte string that cannot be converted to a platform path. -/
structure PathConv : Type where
  try_from_bstr : String → Option String

/-- The run-aborting errors of the engine. -/
inductive GengoError : Type where
  | revisionNotFound : GengoError
  | blobNotFound : GengoError
deriving DecidableEq, Repr

/-- `Results::from_index`: split the index into regular-file blob entries
(modes `FILE` and `FILE_EXECUTABLE`, empty result slots) and the side list of
(submodule path, recorded commit id) pairs (mode `COMMIT`). -/
def Results.from_index (root : String) (index : List IndexEntry) :
    Results × List (String × Nat) :=
  let submodules := (index.filter fun e => e.mode == Mode.commit).map
    fun e => (e.path, e.id)
  let entries := (index.filter fun e =>
      e.mode == Mode.file || e.mode == Mode.fileExecutable).map
    fun e => { index_entry := e, result := none }
  ({ root := root, entries := entries }, submodules)

/-- The body of `Handler::analyze_blob` including blob retrieval: find the
blob by id (failure is fatal), resolve the attributes at the path, classify,
and store the outcome in the entry's result slot when a language was found. -/
def Handler.analyze_blob_run (h : Handler) (repo : Repo) (filepath : String)
    (entry : BlobEntry) (is_submodule : Bool) : Except GengoError BlobEntry :=
  match repo.find_blob entry.index_entry.id with
  | none => Except.error GengoError.blobNotFound
  | some contents =>
    match h.analyze_blob filepath contents (repo.attrs_at filepath) is_submodule with
    | none => Except.ok entry
    | some e => Except.ok { entry with result := some e }

/-- The per-entry worker body of `Handler::analyze_index`: a path that cannot
be converted to a platform path is skipped without error, otherwise the entry
is classified by `analyze_blob_run`. -/
def Handler.analyzeEntry (h : Handler) (conv : PathConv) (repo : Repo)
    (is_submodule : Bool) (entry : BlobEntry) : Except GengoError BlobEntry :=
  match conv.try_from_bstr entry.index_entry.path with
  | none => Except.ok entry
  | some filepath => h.analyze_blob_run repo filepath entry is_submodule

/-- `Handler::analyze_index` — the classification driver over one unit's entry
list (sequential semantics of the parallel slice driver: each entry's slot is
filled independently; the first fatal error aborts the call). -/
def Handler.analyze_index (h : Handler) (conv : PathConv) (repo : Repo)
    (is_submodule : Bool) : List BlobEntry → Except GengoError (List BlobEntry)
  | [] => Except.ok []
  | e :: es =>
    match h.analyzeEntry conv repo is_submodule e with
    | Except.error err => Except.error err
    | Except.ok e' =>
      match h.analyze_index conv repo is_submodule es with
      | Except.error err => Except.error err
      | Except.ok es' => Except.ok (e' :: es')

/-- The absolute-root computation in `Handler::analyze`: clone the parent
root, push `'/'` when it is non-empty, and append the submodule path. -/
def composeRoot (root path : String) : String :=
  if root.isEmpty then path else root ++ "/" ++ path

/-- `HashMap::remove` on the path-keyed submodule map, modelled on an
association list: return the removed value and the remaining list. -/
def assocRemove (k : String) : List (String × Repo) → Option (Repo × List (String × Repo))
  | [] => none
  | (k', v) :: rest =>
    if k' = k then some (v, rest)
    else (assocRemove k rest).map fun pr => (pr.1, (k', v) :: pr.2)

/-- The `stack.extend(...)` computation in `Handler::analyze`: for each
(submodule path, recorded commit id) of the unit, remove the opened submodule
repository from the map, peel the recorded commit to a tree, and emit a new
unit rooted at the composed absolute root.  Failures skip the pair. -/
def pushedUnits (root : String) :
    List (String × Repo) → List (String × Nat) → List (String × Repo × Nat)
  | _, [] => []
  | m, (path, sm_commit) :: rest =>
    match assocRemove path m with
    | none => pushedUnits root m rest
    | some (sm_repo, m') =>
      match sm_repo.find_commit_tree sm_commit with
      | none => pushedUnits root m' rest
      | some tree_id => (composeRoot root path, sm_repo, tree_id) :: pushedUnits root m' rest

/-- One iteration of the `while let Some(...) = stack.pop()` loop in
`Handler::analyze`: build the unit's results from its index, classify every
entry, and compute the child units to push. -/
def Handler.stepUnit (h : Handler) (conv : PathConv) (root : String) (repo : Repo)
    (tree_id : Nat) : Except GengoError (Results × List (String × Repo × Nat)) :=
  let is_submodule := !root.isEmpty
  let index := repo.index_from_tree tree_id
  let results := (Results.from_index root index).1
  let submodule_id_by_path := (Results.from_index root index).2
  let submodules_by_path := repo.submodules.filterMap fun pr =>
    pr.2.map fun r => (pr.1, r)
  match h.analyze_index conv repo is_submodule results.entries with
  | Except.error err => Except.error err
  | Except.ok entries' =>
    Except.ok ({ results with entries := entries' },
      pushedUnits root submodules_by_path submodule_id_by_path)

/-- The work-stack loop of `Handler::analyze`, fuel-indexed (the source loop
terminates because submodule nesting is finite; `none` models fuel
exhaustion).  The head of the list is the top of the stack; children are
pushed so that the last-extended child is popped first. -/
def Handler.analyzeLoop (h : Handler) (conv : PathConv) :
    Nat → List (String × Repo × Nat) → List Results →
    Option (Except GengoError (List Results))
  | _, [], acc => some (Except.ok acc)
  | 0, _ :: _, _ => none
  | fuel + 1, (root, repo, tree_id) :: stack, acc =>
    match h.stepUnit conv root repo tree_id with
    | Except.error err => some (Except.error err)
    | Except.ok (results, pushed) =>
      h.analyzeLoop conv fuel (pushed.reverse ++ stack) (acc ++ [results])

/-- `Handler::analyze`: resolve the revision to a tree (failure is fatal) and
run the work-stack loop seeded with the top-level unit (empty root). -/
def Handler.analyze (h : Handler) (conv : PathConv) (repo : Repo)
    (rev_tree : Option Nat) (fuel : Nat) :
    Option (Except GengoError (List Results)) :=
  match rev_tree with
  | none => some (Except.error GengoError.revisionNotFound)
  | some tree_id => h.analyzeLoop conv fuel [("", repo, tree_id)] []

/-- `Analysis` — the read-only view over accumulated results. -/
structure Analysis : Type where
  results : Results
deriving DecidableEq, Repr

/-- `Analysis::iter`: the (path, entry) pairs of all classified entries whose
path converts to a platform path. -/
def Analysis.iter (a : Analysis) (conv : PathConv) : List (String × Entry) :=
  a.results.entries.filterMap fun entry =>
    entry.result.bind fun result =>
      (conv.try_from_bstr entry.index_entry.path).map fun p => (p, result)

/-- `SummaryOpts` (the `all` flag includes non-detectable entries). -/
structure SummaryOpts : Type where
  all : Bool
deriving DecidableEq, Repr

/-- `IndexMap`'s `*map.entry(key).or_insert(0) += size`: add to the existing
key in place, or append the key at the end with the given initial size. -/
def addToSummary : List (Language × Nat) → Language → Nat → List (Language × Nat)
  | [], lang, size => [(lang, size)]
  | (k, v) :: rest, lang, size =>
    if k = lang then (k, v + size) :: rest
    else (k, v) :: addToSummary rest lang size

/-- `Analysis::summary_with`: fold the classified entries, skipping
non-detectable ones unless `opts.all`, accumulating sizes per language. -/
def Analysis.summary_with (a : Analysis) (opts : SummaryOpts) : List (Language × Nat) :=
  (a.results.entries.filterMap fun e => e.result).foldl
    (fun summary entry =>
      if !(opts.all || entry.detectable) then summary
      else addToSummary summary entry.language entry.size)
    []

/-- `Analysis::summary`: the default summary restricted to detectable entries. -/
def Analysis.summary (a : Analysis) : List (Language × Nat) :=
  a.summary_with { all := false }

/-! ### Small concrete instances, used by counterexamples and witnesses -/

/-- A data-category language. -/
def csvLang : Language := { name := "CSV", category := Category.data }

/-- A programming-category language. -/
def rustLang : Language := { name := "Rust Lang", category := Category.programming }

/-- A concrete catalog: name lookup recognizes only `"Rust Lang"`; the
heuristic picker always proposes `csvLang`. -/
def sampleAnalyzers : Analyzers :=
  { get := fun s => if s = "Rust Lang" then some rustLang else none
    pick := fun _ _ _ => some csvLang }

/-- A concrete handler with all heuristics returning `false`. -/
def sampleHandler : Handler :=
  { analyzers := sampleAnalyzers
    read_limit := 16
    is_generated := fun _ _ => false
    is_documentation := fun _ _ => false
    is_vendored := fun _ _ => false }

/-- All five attributes unspecified. -/
def unspecAttrs : AttrState :=
  { lang := StateRef.unspecified
    generated := StateRef.unspecified
    documentation := StateRef.unspecified
    vendored := StateRef.unspecified
    detectable := StateRef.unspecified }

/-- Attributes with an explicit `gengo-detectable` set on an otherwise
unspecified file. -/
def c1Attrs : AttrState := { unspecAttrs with detectable := StateRef.isSet }

/-- The entry `sampleHandler` produces for an empty file under `c1Attrs`. -/
def c1Entry : Entry :=
  { language := csvLang
    size := 0
    detectable := true
    generated := false
    documentation := false
    vendored := false }

/-- Attributes with explicit `gengo-generated` set and `gengo-vendored`
unset. -/
def c3Attrs : AttrState :=
  { unspecAttrs with generated := StateRef.isSet, vendored := StateRef.unset }

/-- The entry `sampleHandler` produces for an empty submodule file under
`c3Attrs`. -/
def c3Entry : Entry :=
  { language := csvLang
    size := 0
    detectable := false
    generated := true
    documentation := false
    vendored := false }

/-- Attributes with an explicit `gengo-language` value needing hyphen
normalization. -/
def c4Attrs : AttrState := { unspecAttrs with lang := StateRef.value "Rust-Lang" }

/-- Lookup of a language's accumulated total in a summary association list
(`0` when the language is absent). -/
def lookupSize : List (Language × Nat) → Language → Nat
  | [], _ => 0
  | (k, v) :: rest, lang => if k = lang then v else lookupSize rest lang

/-- Stated from the spec's summation law: the sum of `size` over the
classified entries of one language, restricted to detectable entries unless
`all`. -/
def specLangTotal (all : Bool) (lang : Language) (entries : List BlobEntry) : Nat :=
  (((entries.filterMap fun e => e.result).filter fun r =>
      r.language == lang && (all || r.detectable)).map Entry.size).sum

/-- Modelled from the spec: the reported absolute path of a file inside a
traversal unit.  The reporting composition (`crate::Results` and the final
`Analysis` assembly live outside `src/`); the spec says the unit's
`root_prefix` is prepended to every path discovered within the unit using
`/` as the separator, which is the same composition `analyze` uses for
sub-repository roots. -/
def reportedPath (root relpath : String) : String := composeRoot root relpath

/-- An identity path conversion (every byte string is a valid path). -/
def sampleConv : PathConv := { try_from_bstr := fun p => some p }

/-- A path conversion under which no byte string converts. -/
def noneConv : PathConv := { try_from_bstr := fun _ => none }

/-- A handler that never determines a language. -/
def nullHandler : Handler :=
  { analyzers := { get := fun _ => none, pick := fun _ _ _ => none }
    read_limit := 0
    is_generated := fun _ _ => false
    is_documentation := fun _ _ => false
    is_vendored := fun _ _ => false }

/-- A repository with an empty index whose every blob lookup succeeds. -/
def sampleRepo : Repo :=
  Repo.mk (fun _ => []) (fun _ => some [7]) (fun _ => unspecAttrs) []
    (fun _ => none)

/-- Like `sampleRepo` but with different commit-to-tree peeling: it agrees
with `sampleRepo` on blob lookup and attributes. -/
def sampleRepo2 : Repo :=
  Repo.mk (fun _ => []) (fun _ => some [7]) (fun _ => unspecAttrs) []
    (fun _ => some 99)

/-- An unclassified blob entry for a regular file. -/
def sampleBlobEntry : BlobEntry :=
  { index_entry := { path := "a.x", id := 1, mode := Mode.file }, result := none }

/-- An empty sub-repository whose recorded commit `42` peels to tree `7`. -/
def subRepo : Repo :=
  Repo.mk (fun _ => []) (fun _ => none) (fun _ => unspecAttrs) []
    (fun c => if c = 42 then some 7 else none)

/-- A repository whose index records one sub-repository at `vendor/pkg`
pinned to commit `42`, openable as `subRepo`. -/
def parentRepo : Repo :=
  Repo.mk (fun _ => [{ path := "vendor/pkg", id := 42, mode := Mode.commit }])
    (fun _ => none) (fun _ => unspecAttrs) [("vendor/pkg", some subRepo)]
    (fun _ => none)

/-- A repository with one regular file whose blob cannot be found. -/
def badRepo : Repo :=
  Repo.mk (fun _ => [{ path := "f.rs", id := 3, mode := Mode.file }])
    (fun _ => none) (fun _ => unspecAttrs) [] (fun _ => none)

/-- A classified blob entry whose stored path does not convert under
`noneConv`. -/
def c10Entry : BlobEntry :=
  { index_entry := { path := "bad", id := 1, mode := Mode.file }
    result := some c1Entry }

end Gengo

namespace Gengo

/-! ### Helper lemmas -/

/-- Characterization of a successful `analyze_blob`: the entry it returns is
built from the chosen language and the facet resolutions. -/
theorem Handler.analyze_blob_some (h : Handler) {fp : String} {c : List Nat}
    {attrs : AttrState} {s : Bool} {e : Entry}
    (he : h.analyze_blob fp c attrs s = some e) :
    ∃ lang,
      (h.lang_override attrs).orElse
        (fun _ => h.analyzers.pick fp c h.read_limit) = some lang ∧
      e = { language := lang
            size := c.length
            detectable := h.facetDetectable attrs
              (derivedDetectable lang.category (h.facetGenerated fp c attrs)
                (h.facetDocumentation fp c attrs) (h.facetVendored fp c attrs s))
            generated := h.facetGenerated fp c attrs
            documentation := h.facetDocumentation fp c attrs
            vendored := h.facetVendored fp c attrs s } := by
  unfold Handler.analyze_blob at he
  cases hL : (h.lang_override attrs).orElse
      (fun _ => h.analyzers.pick fp c h.read_limit) with
  | none => rw [hL] at he; exact absurd he (by simp)
  | some lang =>
    rw [hL] at he
    refine ⟨lang, rfl, ?_⟩
    simpa using he.symm

/-- When the `gengo-language` attribute carries a value and the catalog lookup
of its normalized form yields `o`, the language override is `o`. -/
theorem Handler.lang_override_value (h : Handler) {attrs : AttrState} {v : String}
    (hv : attrs.lang = StateRef.value v) :
    h.lang_override attrs = h.analyzers.get (replaceHyphens v) := by
  simp [Handler.lang_override, optAttr, hv]

/-! ### Claims -/

/-- Claim C1, counterexample: a classified file whose language category is
`Data` can nevertheless have `detectable = true`, when an explicit
`gengo-detectable` attribute override is present — on the empty file `x.csv`
with the heuristic picker choosing the Data-category language `csvLang` and
the `gengo-detectable` attribute set, the resulting entry has
`detectable = true`.  This refutes the claim's "for all inputs including
files with an explicit detectable attribute override". -/
theorem C1_counterexample :
    (sampleHandler.analyze_blob "x.csv" [] c1Attrs false).map
      (fun e => (e.language.category, e.detectable)) =
      some (Category.data, true) := by
  decide

/-- Claim C1, amended: for every classified file, when no explicit
`gengo-detectable` override is present, the resulting entry never has
`detectable = true` if its language's category is `Data` or `Prose`. -/
theorem C1_data_prose_never_detectable (h : Handler) (fp : String) (c : List Nat)
    (attrs : AttrState) (s : Bool) (e : Entry)
    (hdet : attrs.detectable = StateRef.unspecified)
    (he : h.analyze_blob fp c attrs s = some e)
    (hcat : e.language.category = Category.data ∨ e.language.category = Category.prose) :
    e.detectable = false := by
  obtain ⟨lang, -, rfl⟩ := h.analyze_blob_some he
  simp only at hcat
  rcases hcat with hcat | hcat <;>
    simp [Handler.facetDetectable, optAttr, hdet, derivedDetectable, hcat]

/-- Claim C1, witness for the amended theorem: a Data-category file with all
attributes unspecified is classified with `detectable = false`. -/
theorem C1_data_prose_never_detectable_witness :
    sampleHandler.analyze_blob "x.csv" [1, 2] unspecAttrs false =
      some { language := csvLang, size := 2, detectable := false,
             generated := false, documentation := false, vendored := false } ∧
    ({ language := csvLang, size := 2, detectable := false, generated := false,
       documentation := false, vendored := false } : Entry).detectable = false :=
  ⟨by decide,
   C1_data_prose_never_detectable sampleHandler "x.csv" [1, 2] unspecAttrs false _
     (by decide) (by decide) (Or.inl (by decide))⟩

/-- Claim C2: for every classified file, the `detectable` facet equals the
decoded explicit override when one is present, else `false` for the `Data`
and `Prose` categories, else (for `Programming`, `Markup`, `Query`) `true`
exactly when none of the resolved `generated`, `documentation`, `vendored`
facets is `true`. -/
theorem C2_detectable_formula (h : Handler) (fp : String) (c : List Nat)
    (attrs : AttrState) (s : Bool) (e : Entry)
    (he : h.analyze_blob fp c attrs s = some e) :
    e.detectable = ((optAttr attrs.detectable).map StateRef.is_set).getD
      (match e.language.category with
       | Category.data | Category.prose => false
       | Category.programming | Category.markup | Category.query =>
         !(e.generated || e.documentation || e.vendored)) := by
  obtain ⟨lang, -, rfl⟩ := h.analyze_blob_some he
  obtain ⟨name, cat⟩ := lang
  cases cat <;> rfl

/-- Claim C2, witness: the detectable formula instantiated at a concrete
classification with an explicit `gengo-detectable` override. -/
theorem C2_detectable_formula_witness :
    sampleHandler.analyze_blob "x.csv" [] c1Attrs false = some c1Entry ∧
    c1Entry.detectable = ((optAttr c1Attrs.detectable).map StateRef.is_set).getD
      (match c1Entry.language.category with
       | Category.data | Category.prose => false
       | Category.programming | Category.markup | Category.query =>
         !(c1Entry.generated || c1Entry.documentation || c1Entry.vendored)) :=
  ⟨by decide,
   C2_detectable_formula sampleHandler "x.csv" [] c1Attrs false c1Entry (by decide)⟩

/-- Claim C3: for every classified file, `generated` and `documentation`
equal the decoded explicit override when present and their heuristics
otherwise, and `vendored` equals the decoded explicit override when present
and `is_submodule || vendored-heuristic` otherwise. -/
theorem C3_facet_resolution (h : Handler) (fp : String) (c : List Nat)
    (attrs : AttrState) (s : Bool) (e : Entry)
    (he : h.analyze_blob fp c attrs s = some e) :
    e.generated = ((optAttr attrs.generated).map StateRef.is_set).getD
        (h.is_generated fp c) ∧
    e.documentation = ((optAttr attrs.documentation).map StateRef.is_set).getD
        (h.is_documentation fp c) ∧
    e.vendored = ((optAttr attrs.vendored).map StateRef.is_set).getD
        (s || h.is_vendored fp c) := by
  obtain ⟨lang, -, rfl⟩ := h.analyze_blob_some he
  exact ⟨rfl, rfl, rfl⟩

/-- Claim C3, witness: the facet resolutions instantiated at a concrete
submodule file with a set `gengo-generated` override and an unset
`gengo-vendored` override. -/
theorem C3_facet_resolution_witness :
    sampleHandler.analyze_blob "x" [] c3Attrs true = some c3Entry ∧
    (c3Entry.generated = ((optAttr c3Attrs.generated).map StateRef.is_set).getD
        (sampleHandler.is_generated "x" []) ∧
     c3Entry.documentation = ((optAttr c3Attrs.documentation).map StateRef.is_set).getD
        (sampleHandler.is_documentation "x" []) ∧
     c3Entry.vendored = ((optAttr c3Attrs.vendored).map StateRef.is_set).getD
        (true || sampleHandler.is_vendored "x" [])) :=
  ⟨by decide,
   C3_facet_resolution sampleHandler "x" [] c3Attrs true c3Entry (by decide)⟩

/-- Claim C4: when the explicit `gengo-language` override carries a value and
the catalog lookup of the value with hyphens replaced by spaces succeeds, the
classified language is that catalog entry; when the override resolution
yields nothing (no override, or the name is absent from the catalog), the
language silently falls through to the heuristic picker. -/
theorem C4_language_resolution (h : Handler) (fp : String) (c : List Nat)
    (attrs : AttrState) (s : Bool) :
    (∀ v lang, attrs.lang = StateRef.value v →
        h.analyzers.get (replaceHyphens v) = some lang →
        (h.analyze_blob fp c attrs s).map Entry.language = some lang) ∧
    (h.lang_override attrs = none →
        (h.analyze_blob fp c attrs s).map Entry.language =
          h.analyzers.pick fp c h.read_limit) := by
  constructor
  · intro v lang hv hg
    have hov : h.lang_override attrs = some lang := by
      rw [h.lang_override_value hv, hg]
    simp [Handler.analyze_blob, hov, Option.orElse]
  · intro hnone
    cases hp : h.analyzers.pick fp c h.read_limit <;>
      simp [Handler.analyze_blob, hnone, hp, Option.orElse]

/-- Claim C4, witness: the override `Rust-Lang` normalizes to `Rust Lang`,
is found in the catalog and wins; with all attributes unspecified the
heuristic picker's choice is used. -/
theorem C4_language_resolution_witness :
    (sampleHandler.analyze_blob "a" [] c4Attrs false).map Entry.language =
      some rustLang ∧
    (sampleHandler.analyze_blob "a" [] unspecAttrs false).map Entry.language =
      sampleHandler.analyzers.pick "a" [] sampleHandler.read_limit :=
  ⟨(C4_language_resolution sampleHandler "a" [] c4Attrs false).1 "Rust-Lang"
     rustLang (by decide) (by decide),
   (C4_language_resolution sampleHandler "a" [] unspecAttrs false).2 (by decide)⟩

/-- Adding a size for one language changes exactly that language's lookup. -/
theorem lookupSize_addToSummary (m : List (Language × Nat)) (l lang : Language)
    (n : Nat) :
    lookupSize (addToSummary m l n) lang =
      lookupSize m lang + (if l = lang then n else 0) := by
  induction m with
  | nil =>
    by_cases hl : l = lang <;> simp [addToSummary, lookupSize, hl]
  | cons p rest ih =>
    obtain ⟨k, v⟩ := p
    by_cases hkl : k = l
    · subst hkl
      by_cases hkg : k = lang <;> simp [addToSummary, lookupSize, hkg]
    · by_cases hkg : k = lang
      · subst hkg
        have : ¬ l = k := fun hh => hkl hh.symm
        simp [addToSummary, lookupSize, hkl, this]
      · simp [addToSummary, lookupSize, hkl, hkg, ih]

/-- The summary fold accumulates, per language, the sum of the sizes of the
entries it does not skip. -/
theorem lookupSize_fold (all : Bool) (lang : Language) (rs : List Entry) :
    ∀ m, lookupSize (rs.foldl (fun summary entry =>
        if !(all || entry.detectable) then summary
        else addToSummary summary entry.language entry.size) m) lang =
      lookupSize m lang +
        ((rs.filter fun r => r.language == lang && (all || r.detectable)).map
          Entry.size).sum := by
  induction rs with
  | nil => simp
  | cons r rs ih =>
    intro m
    simp only [List.foldl_cons]
    rw [ih]
    by_cases hd : all || r.detectable
    · by_cases hl : r.language = lang
      · simp [hd, hl, lookupSize_addToSummary, List.filter_cons]
        omega
      · simp [hd, hl, lookupSize_addToSummary, List.filter_cons]
    · simp [hd, List.filter_cons]

/-- Claim C5: for every analysis and language, the summary with `all = true`
maps the language to the sum of `size` over all classified entries of that
language, and with `all = false` to the sum over only the `detectable`
entries; same-language entries accumulate by summation. -/
theorem C5_summary_summation (a : Analysis) (lang : Language) :
    lookupSize (a.summary_with { all := true }) lang =
      specLangTotal true lang a.results.entries ∧
    lookupSize (a.summary_with { all := false }) lang =
      specLangTotal false lang a.results.entries := by
  constructor <;>
    · unfold Analysis.summary_with specLangTotal
      rw [lookupSize_fold]
      simp [lookupSize]

/-- Claim C6: when neither the explicit language override (after catalog
lookup) nor the heuristic picker yields a language, classification of the
entry returns successfully with its result slot left unchanged (absent), and
an entry with an absent result slot contributes nothing to `Analysis::iter`'s
output. -/
theorem C6_no_language_is_not_an_error (h : Handler) (conv : PathConv)
    (repo : Repo) (s : Bool) (e : BlobEntry) (fp : String) (contents : List Nat)
    (hfp : conv.try_from_bstr e.index_entry.path = some fp)
    (hblob : repo.find_blob e.index_entry.id = some contents)
    (hov : h.lang_override (repo.attrs_at fp) = none)
    (hpick : h.analyzers.pick fp contents h.read_limit = none) :
    h.analyzeEntry conv repo s e = Except.ok e ∧
    (∀ root es₁ es₂, e.result = none →
      Analysis.iter ⟨⟨root, es₁ ++ e :: es₂⟩⟩ conv =
        Analysis.iter ⟨⟨root, es₁ ++ es₂⟩⟩ conv) := by
  constructor
  · simp [Handler.analyzeEntry, hfp, Handler.analyze_blob_run, hblob,
      Handler.analyze_blob, hov, hpick, Option.orElse]
  · intro root es₁ es₂ he
    simp [Analysis.iter, List.filterMap_append, List.filterMap_cons, he]

/-- Claim C6, witness: a file the null handler cannot classify is skipped
without error and never appears in the analysis output. -/
theorem C6_no_language_is_not_an_error_witness :
    nullHandler.analyzeEntry sampleConv sampleRepo false sampleBlobEntry =
      Except.ok sampleBlobEntry ∧
    Analysis.iter ⟨⟨"", [] ++ sampleBlobEntry :: []⟩⟩ sampleConv =
      Analysis.iter ⟨⟨"", [] ++ []⟩⟩ sampleConv :=
  ⟨(C6_no_language_is_not_an_error nullHandler sampleConv sampleRepo false
      sampleBlobEntry "a.x" [7] rfl rfl rfl rfl).1,
   (C6_no_language_is_not_an_error nullHandler sampleConv sampleRepo false
      sampleBlobEntry "a.x" [7] rfl rfl rfl rfl).2 "" [] [] rfl⟩

/-- Every unit pushed by the stack extension of `analyze` is rooted at the
parent root composed with some discovered submodule path. -/
theorem pushedUnits_mem_root (root : String) (l : List (String × Nat)) :
    ∀ (m : List (String × Repo)) (u : String × Repo × Nat),
      u ∈ pushedUnits root m l →
      ∃ path commit, (path, commit) ∈ l ∧ u.1 = composeRoot root path := by
  induction l with
  | nil =>
    intro m u hu
    simp [pushedUnits] at hu
  | cons p rest ih =>
    obtain ⟨path, sm_commit⟩ := p
    intro m u hu
    unfold pushedUnits at hu
    cases hr : assocRemove path m with
    | none =>
      rw [hr] at hu
      obtain ⟨path', commit', hmem, heq⟩ := ih m u hu
      exact ⟨path', commit', List.mem_cons_of_mem _ hmem, heq⟩
    | some pr =>
      obtain ⟨sm_repo, m'⟩ := pr
      rw [hr] at hu
      dsimp only at hu
      cases ht : sm_repo.find_commit_tree sm_commit with
      | none =>
        rw [ht] at hu
        obtain ⟨path', commit', hmem, heq⟩ := ih m' u hu
        exact ⟨path', commit', List.mem_cons_of_mem _ hmem, heq⟩
      | some tree_id =>
        rw [ht] at hu
        rcases List.mem_cons.1 hu with rfl | hu'
        · exact ⟨path, sm_commit, List.mem_cons_self _ _, rfl⟩
        · obtain ⟨path', commit', hmem, heq⟩ := ih m' u hu'
          exact ⟨path', commit', List.mem_cons_of_mem _ hmem, heq⟩

/-- Claim C7: every unit pushed for a discovered sub-repository has root
equal to the parent root concatenated with the sub-repository's relative
path using `/` (no leading separator when the parent root is empty), and a
file at `lib/foo.c` in a sub-repository mounted at `vendor/pkg` is reported
at `vendor/pkg/lib/foo.c`. -/
theorem C7_subrepo_root_composition (h : Handler) (conv : PathConv)
    (root : String) (repo : Repo) (tree_id : Nat) (res : Results)
    (pushed : List (String × Repo × Nat))
    (hstep : h.stepUnit conv root repo tree_id = Except.ok (res, pushed)) :
    (∀ u ∈ pushed, ∃ path commit,
      (path, commit) ∈ (Results.from_index root (repo.index_from_tree tree_id)).2 ∧
      u.1 = composeRoot root path) ∧
    reportedPath (composeRoot "" "vendor/pkg") "lib/foo.c" =
      "vendor/pkg/lib/foo.c" := by
  constructor
  · intro u hu
    simp only [Handler.stepUnit] at hstep
    cases ha : h.analyze_index conv repo (!root.isEmpty)
        (Results.from_index root (repo.index_from_tree tree_id)).1.entries with
    | error err =>
      rw [ha] at hstep
      exact absurd hstep (by simp)
    | ok entries' =>
      rw [ha] at hstep
      simp only [Except.ok.injEq, Prod.mk.injEq] at hstep
      obtain ⟨-, hpush⟩ := hstep
      rw [← hpush] at hu
      exact pushedUnits_mem_root root _ _ u hu
  · rfl

/-- Claim C7, witness: the unit pushed for the sub-repository of
`parentRepo` recorded at `vendor/pkg` is rooted at `vendor/pkg`, and the
reported-path example evaluates. -/
theorem C7_subrepo_root_composition_witness :
    (∃ path commit,
      (path, commit) ∈ (Results.from_index "" (parentRepo.index_from_tree 0)).2 ∧
      (("vendor/pkg", subRepo, (7 : Nat)) : String × Repo × Nat).1 =
        composeRoot "" path) ∧
    reportedPath (composeRoot "" "vendor/pkg") "lib/foo.c" =
      "vendor/pkg/lib/foo.c" :=
  have hthm := C7_subrepo_root_composition nullHandler sampleConv "" parentRepo 0
    { root := "", entries := [] } [("vendor/pkg", subRepo, 7)] rfl
  ⟨hthm.1 ("vendor/pkg", subRepo, 7) (List.mem_singleton.2 rfl), hthm.2⟩

/-- The per-entry worker can only fail with a missing blob. -/
theorem Handler.analyzeEntry_error (h : Handler) (conv : PathConv) (repo : Repo)
    (s : Bool) (e : BlobEntry) (err : GengoError)
    (he : h.analyzeEntry conv repo s e = Except.error err) :
    err = GengoError.blobNotFound := by
  unfold Handler.analyzeEntry at he
  cases hc : conv.try_from_bstr e.index_entry.path with
  | none =>
    rw [hc] at he
    exact absurd he (by simp)
  | some fp =>
    rw [hc] at he
    unfold Handler.analyze_blob_run at he
    dsimp only at he
    cases hb : repo.find_blob e.index_entry.id with
    | none =>
      rw [hb] at he
      simpa using he.symm
    | some contents =>
      rw [hb] at he
      dsimp only at he
      cases hab : h.analyze_blob fp contents (repo.attrs_at fp) s with
      | none => rw [hab] at he; exact absurd he (by simp)
      | some entry => rw [hab] at he; exact absurd he (by simp)

/-- A unit containing a file with a convertible path but a missing blob makes
the classification driver fail with `blobNotFound`. -/
theorem Handler.analyze_index_blob_missing (h : Handler) (conv : PathConv)
    (repo : Repo) (s : Bool) :
    ∀ es : List BlobEntry,
      (∃ e ∈ es, (∃ fp, conv.try_from_bstr e.index_entry.path = some fp) ∧
        repo.find_blob e.index_entry.id = none) →
      h.analyze_index conv repo s es = Except.error GengoError.blobNotFound := by
  intro es
  induction es with
  | nil =>
    rintro ⟨e, he, -⟩
    exact absurd he (by simp)
  | cons a es ih =>
    rintro ⟨e, he, ⟨fp, hfp⟩, hb⟩
    rcases List.mem_cons.1 he with rfl | he'
    · have ha : h.analyzeEntry conv repo s e = Except.error GengoError.blobNotFound := by
        simp [Handler.analyzeEntry, hfp, Handler.analyze_blob_run, hb]
      simp [Handler.analyze_index, ha]
    · cases ha : h.analyzeEntry conv repo s a with
      | error err =>
        have := h.analyzeEntry_error conv repo s a err ha
        subst this
        simp [Handler.analyze_index, ha]
      | ok a' =>
        have hrec := ih ⟨e, he', ⟨fp, hfp⟩, hb⟩
        simp [Handler.analyze_index, ha, hrec]

/-- A unit containing a file with a convertible path but a missing blob makes
the whole unit step fail with `blobNotFound`. -/
theorem Handler.stepUnit_blob_missing (h : Handler) (conv : PathConv)
    (root : String) (repo : Repo) (tree_id : Nat)
    (hex : ∃ e ∈ (Results.from_index root (repo.index_from_tree tree_id)).1.entries,
      (∃ fp, conv.try_from_bstr e.index_entry.path = some fp) ∧
      repo.find_blob e.index_entry.id = none) :
    h.stepUnit conv root repo tree_id = Except.error GengoError.blobNotFound := by
  have ha := h.analyze_index_blob_missing conv repo (!root.isEmpty)
    (Results.from_index root (repo.index_from_tree tree_id)).1.entries hex
  simp [Handler.stepUnit, ha]

/-- Blob-retrieval failure in the popped unit aborts the whole run. -/
theorem Handler.analyzeLoop_blob_missing (h : Handler) (conv : PathConv)
    (root : String) (repo : Repo) (tree_id : Nat)
    (stack : List (String × Repo × Nat)) (acc : List Results) (fuel : Nat)
    (hex : ∃ e ∈ (Results.from_index root (repo.index_from_tree tree_id)).1.entries,
      (∃ fp, conv.try_from_bstr e.index_entry.path = some fp) ∧
      repo.find_blob e.index_entry.id = none) :
    h.analyzeLoop conv (fuel + 1) ((root, repo, tree_id) :: stack) acc =
      some (Except.error GengoError.blobNotFound) := by
  have hstep := h.stepUnit_blob_missing conv root repo tree_id hex
  simp [Handler.analyzeLoop, hstep]

/-- The per-entry worker observes the repository only through the blob store
at the entry's id and the attribute stack at the entry's converted path. -/
theorem Handler.analyzeEntry_congr (h : Handler) (conv : PathConv)
    (r₁ r₂ : Repo) (s : Bool) (e : BlobEntry)
    (hfb : r₁.find_blob e.index_entry.id = r₂.find_blob e.index_entry.id)
    (hat : ∀ fp, conv.try_from_bstr e.index_entry.path = some fp →
      r₁.attrs_at fp = r₂.attrs_at fp) :
    h.analyzeEntry conv r₁ s e = h.analyzeEntry conv r₂ s e := by
  unfold Handler.analyzeEntry
  cases hc : conv.try_from_bstr e.index_entry.path with
  | none => rfl
  | some fp =>
    unfold Handler.analyze_blob_run
    rw [hfb]
    dsimp only
    rw [hat fp hc]

/-- The classification driver observes the repository only through the blob
store and the attribute stack. -/
theorem Handler.analyze_index_congr (h : Handler) (conv : PathConv)
    (r₁ r₂ : Repo) (s : Bool)
    (hfb : r₁.find_blob = r₂.find_blob) (hat : r₁.attrs_at = r₂.attrs_at) :
    ∀ es : List BlobEntry,
      h.analyze_index conv r₁ s es = h.analyze_index conv r₂ s es := by
  intro es
  induction es with
  | nil => rfl
  | cons a es ih =>
    have ha : h.analyzeEntry conv r₁ s a = h.analyzeEntry conv r₂ s a :=
      h.analyzeEntry_congr conv r₁ r₂ s a (by rw [hfb]) (fun fp _ => by rw [hat])
    simp only [Handler.analyze_index, ha, ih]

/-- A `.gitmodules` entry whose repository cannot be opened is dropped before
the submodule map is built: the unit step behaves as if the entry were not
there. -/
theorem Handler.stepUnit_unopenable (h : Handler) (conv : PathConv)
    (root : String) (f : Nat → List IndexEntry) (fb : Nat → Option (List Nat))
    (ats : String → AttrState) (sms₁ sms₂ : List (String × Option Repo))
    (p : String) (fct : Nat → Option Nat) (tree_id : Nat) :
    h.stepUnit conv root (Repo.mk f fb ats (sms₁ ++ (p, none) :: sms₂) fct) tree_id =
      h.stepUnit conv root (Repo.mk f fb ats (sms₁ ++ sms₂) fct) tree_id := by
  have hai := h.analyze_index_congr conv
    (Repo.mk f fb ats (sms₁ ++ (p, none) :: sms₂) fct)
    (Repo.mk f fb ats (sms₁ ++ sms₂) fct) (!root.isEmpty) rfl rfl
  unfold Handler.stepUnit
  simp only [Repo.index_from_tree, Repo.submodules, List.filterMap_append,
    List.filterMap_cons, Option.map_none', hai]

/-- A run with an unopenable submodule entry equals the run without it: the
subtree is silently skipped and every other unit proceeds unchanged. -/
theorem Handler.analyzeLoop_unopenable (h : Handler) (conv : PathConv)
    (root : String) (f : Nat → List IndexEntry) (fb : Nat → Option (List Nat))
    (ats : String → AttrState) (sms₁ sms₂ : List (String × Option Repo))
    (p : String) (fct : Nat → Option Nat) (tree_id : Nat)
    (stack : List (String × Repo × Nat)) (acc : List Results) (fuel : Nat) :
    h.analyzeLoop conv fuel
        ((root, Repo.mk f fb ats (sms₁ ++ (p, none) :: sms₂) fct, tree_id) :: stack) acc =
      h.analyzeLoop conv fuel
        ((root, Repo.mk f fb ats (sms₁ ++ sms₂) fct, tree_id) :: stack) acc := by
  cases fuel with
  | zero => rfl
  | succ n =>
    simp only [Handler.analyzeLoop]
    rw [h.stepUnit_unopenable conv root f fb ats sms₁ sms₂ p fct tree_id]

/-- `assocRemove` distributes over append: the first occurrence of the key is
found in the left part when present, else in the right part. -/
theorem assocRemove_append (q : String) (X Z : List (String × Repo)) :
    assocRemove q (X ++ Z) =
      match assocRemove q X with
      | some pr => some (pr.1, pr.2 ++ Z)
      | none => (assocRemove q Z).map fun pr => (pr.1, X ++ pr.2) := by
  induction X with
  | nil =>
    cases hz : assocRemove q Z with
    | none => simp [assocRemove, hz]
    | some pr => simp [assocRemove, hz]
  | cons kv X ih =>
    obtain ⟨k, v⟩ := kv
    by_cases hk : k = q
    · simp [assocRemove, hk]
    · cases ha : assocRemove q X with
      | some pr =>
        obtain ⟨w, X'⟩ := pr
        simp [assocRemove, hk, ih, ha]
      | none =>
        cases hz : assocRemove q Z with
        | none => simp [assocRemove, hk, ih, ha, hz]
        | some pr => simp [assocRemove, hk, ih, ha, hz]

/-- `assocRemove` fails on a list without the key. -/
theorem assocRemove_none (q : String) (m : List (String × Repo))
    (hq : ∀ v, (q, v) ∉ m) : assocRemove q m = none := by
  induction m with
  | nil => rfl
  | cons kv m ih =>
    obtain ⟨k, v⟩ := kv
    have hk : ¬ k = q := fun hh => hq v (hh ▸ List.mem_cons_self _ _)
    have ih' := ih fun v' hv' => hq v' (List.mem_cons_of_mem _ hv')
    simp [assocRemove, hk, ih']

/-- Removal only drops entries: the remainder is made of entries of the
original list. -/
theorem assocRemove_mem {q : String} {m m' : List (String × Repo)} {v : Repo}
    (h : assocRemove q m = some (v, m')) : ∀ a ∈ m', a ∈ m := by
  induction m generalizing m' with
  | nil => exact absurd h (by simp [assocRemove])
  | cons kv m ih =>
    obtain ⟨k, w⟩ := kv
    by_cases hk : k = q
    · simp only [assocRemove, if_pos hk, Option.some.injEq, Prod.mk.injEq] at h
      obtain ⟨-, hm⟩ := h
      subst hm
      exact fun a ha => List.mem_cons_of_mem _ ha
    · simp only [assocRemove, if_neg hk, Option.map_eq_some'] at h
      obtain ⟨⟨v', m''⟩, hrec, heq⟩ := h
      injection heq with h1 h2
      subst h1
      subst h2
      intro a ha
      rcases List.mem_cons.1 ha with rfl | ha'
      · exact List.mem_cons_self _ _
      · exact List.mem_cons_of_mem _ (ih hrec a ha')

/-- A key that appears in the submodule map came from an openable
`.gitmodules` entry at the same path. -/
theorem mem_filterMap_submodules {p : String} {v : Repo}
    {sms : List (String × Option Repo)}
    (hv : (p, v) ∈ sms.filterMap fun pr => pr.2.map fun r => (pr.1, r)) :
    (p, some v) ∈ sms := by
  obtain ⟨⟨a, b⟩, hab, hmap⟩ := List.mem_filterMap.1 hv
  cases b with
  | none => exact absurd hmap (by simp)
  | some r =>
    simp only [Option.map_some', Option.some.injEq, Prod.mk.injEq] at hmap
    obtain ⟨ha, hr⟩ := hmap
    subst ha
    subst hr
    exact hab

/-- A submodule entry whose recorded commits never peel to a tree pushes no
unit and leaves the stack extension of the other entries unchanged (the path
keys are unique, as they are in the path-keyed submodule hash map). -/
theorem pushedUnits_peel_skip (root p : String) (sm_repo : Repo) :
    ∀ l : List (String × Nat),
      (∀ c, (p, c) ∈ l → sm_repo.find_commit_tree c = none) →
      ∀ X Y : List (String × Repo),
        (∀ v, (p, v) ∉ X) → (∀ v, (p, v) ∉ Y) →
        pushedUnits root (X ++ (p, sm_repo) :: Y) l =
          pushedUnits root (X ++ Y) l := by
  intro l
  induction l with
  | nil => intro _ X Y _ _; rfl
  | cons qc rest ih =>
    obtain ⟨q, c⟩ := qc
    intro hpeel X Y hX hY
    have hpeel' : ∀ c', (p, c') ∈ rest → sm_repo.find_commit_tree c' = none :=
      fun c' hc' => hpeel c' (List.mem_cons_of_mem _ hc')
    unfold pushedUnits
    rw [assocRemove_append q X ((p, sm_repo) :: Y), assocRemove_append q X Y]
    cases ha : assocRemove q X with
    | some pr =>
      obtain ⟨v, X'⟩ := pr
      dsimp only
      have hX' : ∀ w, (p, w) ∉ X' := fun w hw => hX w (assocRemove_mem ha _ hw)
      cases ht : v.find_commit_tree c with
      | none => exact ih hpeel' X' Y hX' hY
      | some t => rw [ih hpeel' X' Y hX' hY]
    | none =>
      dsimp only
      by_cases hq : q = p
      · subst hq
        have hYnone : assocRemove q Y = none := assocRemove_none q Y hY
        have hc : sm_repo.find_commit_tree c = none :=
          hpeel c (List.mem_cons_self _ _)
        simp [assocRemove, hYnone, hc]
      · have hstep : assocRemove q ((p, sm_repo) :: Y) =
            (assocRemove q Y).map fun pr => (pr.1, (p, sm_repo) :: pr.2) := by
          have : ¬ p = q := fun hh => hq hh.symm
          simp [assocRemove, this]
        rw [hstep]
        cases hz : assocRemove q Y with
        | none => exact ih hpeel' X Y hX hY
        | some pr =>
          obtain ⟨v, Y'⟩ := pr
          simp only [Option.map_some']
          have hY' : ∀ w, (p, w) ∉ Y' := fun w hw => hY w (assocRemove_mem hz _ hw)
          cases ht : v.find_commit_tree c with
          | none => exact ih hpeel' X Y' hX hY'
          | some t => rw [ih hpeel' X Y' hX hY']

/-- A `.gitmodules` entry that opens but whose recorded commits cannot be
peeled to a tree leaves the unit step unchanged with respect to the entry
being unopenable. -/
theorem Handler.stepUnit_peel_failure (h : Handler) (conv : PathConv)
    (root : String) (f : Nat → List IndexEntry) (fb : Nat → Option (List Nat))
    (ats : String → AttrState) (sms₁ sms₂ : List (String × Option Repo))
    (p : String) (sm_repo : Repo) (fct : Nat → Option Nat) (tree_id : Nat)
    (hpeel : ∀ c, (p, c) ∈ (Results.from_index root (f tree_id)).2 →
      sm_repo.find_commit_tree c = none)
    (h₁ : ∀ o, (p, o) ∉ sms₁) (h₂ : ∀ o, (p, o) ∉ sms₂) :
    h.stepUnit conv root (Repo.mk f fb ats (sms₁ ++ (p, some sm_repo) :: sms₂) fct)
        tree_id =
      h.stepUnit conv root (Repo.mk f fb ats (sms₁ ++ (p, none) :: sms₂) fct)
        tree_id := by
  have hai := h.analyze_index_congr conv
    (Repo.mk f fb ats (sms₁ ++ (p, some sm_repo) :: sms₂) fct)
    (Repo.mk f fb ats (sms₁ ++ (p, none) :: sms₂) fct) (!root.isEmpty) rfl rfl
  have hpu := pushedUnits_peel_skip root p sm_repo
    (Results.from_index root (f tree_id)).2 hpeel
    (sms₁.filterMap fun pr => pr.2.map fun r => (pr.1, r))
    (sms₂.filterMap fun pr => pr.2.map fun r => (pr.1, r))
    (fun v hv => h₁ (some v) (mem_filterMap_submodules hv))
    (fun v hv => h₂ (some v) (mem_filterMap_submodules hv))
  unfold Handler.stepUnit
  simp only [Repo.index_from_tree, Repo.submodules, List.filterMap_append,
    List.filterMap_cons, Option.map_none', Option.map_some', hai]
  rw [hpu]

/-- A run with a submodule whose recorded commits cannot be peeled to a tree
equals the run with that submodule unopenable: the subtree is silently
skipped and every other unit proceeds unchanged. -/
theorem Handler.analyzeLoop_peel_failure (h : Handler) (conv : PathConv)
    (root : String) (f : Nat → List IndexEntry) (fb : Nat → Option (List Nat))
    (ats : String → AttrState) (sms₁ sms₂ : List (String × Option Repo))
    (p : String) (sm_repo : Repo) (fct : Nat → Option Nat) (tree_id : Nat)
    (stack : List (String × Repo × Nat)) (acc : List Results) (fuel : Nat)
    (hpeel : ∀ c, (p, c) ∈ (Results.from_index root (f tree_id)).2 →
      sm_repo.find_commit_tree c = none)
    (h₁ : ∀ o, (p, o) ∉ sms₁) (h₂ : ∀ o, (p, o) ∉ sms₂) :
    h.analyzeLoop conv fuel
        ((root, Repo.mk f fb ats (sms₁ ++ (p, some sm_repo) :: sms₂) fct, tree_id)
          :: stack) acc =
      h.analyzeLoop conv fuel
        ((root, Repo.mk f fb ats (sms₁ ++ (p, none) :: sms₂) fct, tree_id)
          :: stack) acc := by
  cases fuel with
  | zero => rfl
  | succ n =>
    simp only [Handler.analyzeLoop]
    rw [h.stepUnit_peel_failure conv root f fb ats sms₁ sms₂ p sm_repo fct
      tree_id hpeel h₁ h₂]

/-- Claim C8: a failed blob retrieval for a file with a convertible path in
the popped unit aborts the whole run with `blobNotFound`, whereas a
discovered sub-repository that cannot be opened is silently skipped — the
run is identical to the run without that submodule entry, so its files are
never classified and all other units proceed — and a sub-repository that
opens but whose recorded commit cannot be resolved to a tree is skipped the
same way: the run is identical to the run in which that sub-repository is
unopenable (and hence, by the second part, to the run without the entry).
The path-key uniqueness hypotheses of the third part reflect the path-keyed
submodule hash map. -/
theorem C8_blob_fatal_vs_submodule_skip :
    (∀ (h : Handler) (conv : PathConv) (root : String) (repo : Repo)
        (tree_id : Nat) (stack : List (String × Repo × Nat)) (acc : List Results)
        (fuel : Nat),
      (∃ e ∈ (Results.from_index root (repo.index_from_tree tree_id)).1.entries,
        (∃ fp, conv.try_from_bstr e.index_entry.path = some fp) ∧
        repo.find_blob e.index_entry.id = none) →
      h.analyzeLoop conv (fuel + 1) ((root, repo, tree_id) :: stack) acc =
        some (Except.error GengoError.blobNotFound)) ∧
    (∀ (h : Handler) (conv : PathConv) (root : String)
        (f : Nat → List IndexEntry) (fb : Nat → Option (List Nat))
        (ats : String → AttrState) (sms₁ sms₂ : List (String × Option Repo))
        (p : String) (fct : Nat → Option Nat) (tree_id : Nat)
        (stack : List (String × Repo × Nat)) (acc : List Results) (fuel : Nat),
      h.analyzeLoop conv fuel
          ((root, Repo.mk f fb ats (sms₁ ++ (p, none) :: sms₂) fct, tree_id) :: stack) acc =
        h.analyzeLoop conv fuel
          ((root, Repo.mk f fb ats (sms₁ ++ sms₂) fct, tree_id) :: stack) acc) ∧
    (∀ (h : Handler) (conv : PathConv) (root : String)
        (f : Nat → List IndexEntry) (fb : Nat → Option (List Nat))
        (ats : String → AttrState) (sms₁ sms₂ : List (String × Option Repo))
        (p : String) (sm_repo : Repo) (fct : Nat → Option Nat) (tree_id : Nat)
        (stack : List (String × Repo × Nat)) (acc : List Results) (fuel : Nat),
      (∀ c, (p, c) ∈ (Results.from_index root (f tree_id)).2 →
        sm_repo.find_commit_tree c = none) →
      (∀ o, (p, o) ∉ sms₁) → (∀ o, (p, o) ∉ sms₂) →
      h.analyzeLoop conv fuel
          ((root, Repo.mk f fb ats (sms₁ ++ (p, some sm_repo) :: sms₂) fct, tree_id)
            :: stack) acc =
        h.analyzeLoop conv fuel
          ((root, Repo.mk f fb ats (sms₁ ++ (p, none) :: sms₂) fct, tree_id)
            :: stack) acc) :=
  ⟨fun h conv root repo tree_id stack acc fuel hex =>
     h.analyzeLoop_blob_missing conv root repo tree_id stack acc fuel hex,
   fun h conv root f fb ats sms₁ sms₂ p fct tree_id stack acc fuel =>
     h.analyzeLoop_unopenable conv root f fb ats sms₁ sms₂ p fct tree_id stack acc fuel,
   fun h conv root f fb ats sms₁ sms₂ p sm_repo fct tree_id stack acc fuel
       hpeel h₁ h₂ =>
     h.analyzeLoop_peel_failure conv root f fb ats sms₁ sms₂ p sm_repo fct
       tree_id stack acc fuel hpeel h₁ h₂⟩

/-- Claim C8, witness: a one-file repository with a missing blob aborts the
run with `blobNotFound`; a repository whose only submodule cannot be opened
runs exactly like the repository without that submodule entry; a repository
whose only submodule opens as `sampleRepo` (which peels no commit) runs
exactly like the repository in which that submodule is unopenable. -/
theorem C8_blob_fatal_vs_submodule_skip_witness :
    nullHandler.analyzeLoop sampleConv 1 [("", badRepo, 0)] [] =
      some (Except.error GengoError.blobNotFound) ∧
    (nullHandler.analyzeLoop sampleConv 1
        [("", Repo.mk (fun _ => []) (fun _ => none) (fun _ => unspecAttrs)
          ([] ++ ("vendor/x", none) :: []) (fun _ => none), 0)] [] =
      nullHandler.analyzeLoop sampleConv 1
        [("", Repo.mk (fun _ => []) (fun _ => none) (fun _ => unspecAttrs)
          ([] ++ []) (fun _ => none), 0)] []) ∧
    (nullHandler.analyzeLoop sampleConv 1
        [("", Repo.mk
          (fun _ => [{ path := "vendor/pkg", id := 42, mode := Mode.commit }])
          (fun _ => none) (fun _ => unspecAttrs)
          ([] ++ ("vendor/pkg", some sampleRepo) :: []) (fun _ => none), 0)] [] =
      nullHandler.analyzeLoop sampleConv 1
        [("", Repo.mk
          (fun _ => [{ path := "vendor/pkg", id := 42, mode := Mode.commit }])
          (fun _ => none) (fun _ => unspecAttrs)
          ([] ++ ("vendor/pkg", none) :: []) (fun _ => none), 0)] []) :=
  ⟨C8_blob_fatal_vs_submodule_skip.1 nullHandler sampleConv "" badRepo 0 [] [] 0
     ⟨{ index_entry := { path := "f.rs", id := 3, mode := Mode.file }, result := none },
      by decide, ⟨"f.rs", rfl⟩, rfl⟩,
   C8_blob_fatal_vs_submodule_skip.2.1 nullHandler sampleConv "" (fun _ => [])
     (fun _ => none) (fun _ => unspecAttrs) [] [] "vendor/x" (fun _ => none) 0 [] [] 1,
   C8_blob_fatal_vs_submodule_skip.2.2 nullHandler sampleConv ""
     (fun _ => [{ path := "vendor/pkg", id := 42, mode := Mode.commit }])
     (fun _ => none) (fun _ => unspecAttrs) [] [] "vendor/pkg" sampleRepo
     (fun _ => none) 0 [] [] 1
     (fun _ _ => rfl) (fun o => List.not_mem_nil _) (fun o => List.not_mem_nil _)⟩

/-- Claim C9: classification is deterministic and free of hidden state — the
outcome for an entry is a function of the entry's path bytes, its blob
content, the attribute states at its converted path and the `is_submodule`
flag only: two repositories agreeing on those observations yield identical
outcomes, per entry and for a whole driver call. -/
theorem C9_classification_deterministic :
    (∀ (h : Handler) (conv : PathConv) (r₁ r₂ : Repo) (s : Bool) (e : BlobEntry),
      r₁.find_blob e.index_entry.id = r₂.find_blob e.index_entry.id →
      (∀ fp, conv.try_from_bstr e.index_entry.path = some fp →
        r₁.attrs_at fp = r₂.attrs_at fp) →
      h.analyzeEntry conv r₁ s e = h.analyzeEntry conv r₂ s e) ∧
    (∀ (h : Handler) (conv : PathConv) (r₁ r₂ : Repo) (s : Bool)
        (es : List BlobEntry),
      r₁.find_blob = r₂.find_blob → r₁.attrs_at = r₂.attrs_at →
      h.analyze_index conv r₁ s es = h.analyze_index conv r₂ s es) :=
  ⟨fun h conv r₁ r₂ s e hfb hat => h.analyzeEntry_congr conv r₁ r₂ s e hfb hat,
   fun h conv r₁ r₂ s es hfb hat => h.analyze_index_congr conv r₁ r₂ s hfb hat es⟩

/-- Claim C9, witness: two concrete repositories that differ in their
commit-peeling behaviour but agree on blobs and attributes classify a file
identically. -/
theorem C9_classification_deterministic_witness :
    nullHandler.analyzeEntry sampleConv sampleRepo false sampleBlobEntry =
      nullHandler.analyzeEntry sampleConv sampleRepo2 false sampleBlobEntry ∧
    nullHandler.analyze_index sampleConv sampleRepo false [sampleBlobEntry] =
      nullHandler.analyze_index sampleConv sampleRepo2 false [sampleBlobEntry] :=
  ⟨C9_classification_deterministic.1 nullHandler sampleConv sampleRepo sampleRepo2
     false sampleBlobEntry rfl (fun _ _ => rfl),
   C9_classification_deterministic.2 nullHandler sampleConv sampleRepo sampleRepo2
     false [sampleBlobEntry] rfl rfl⟩

/-- Claim C10 (implicit): an entry whose stored path bytes cannot be
converted to a platform path is silently dropped — the driver skips
classifying it without error (its slot stays as it was), and `Analysis::iter`
omits it from the output even when a classification entry exists for it. -/
theorem C10_unconvertible_path_dropped (h : Handler) (conv : PathConv)
    (repo : Repo) (s : Bool) (e : BlobEntry)
    (hfp : conv.try_from_bstr e.index_entry.path = none) :
    h.analyzeEntry conv repo s e = Except.ok e ∧
    (∀ root es₁ es₂,
      Analysis.iter ⟨⟨root, es₁ ++ e :: es₂⟩⟩ conv =
        Analysis.iter ⟨⟨root, es₁ ++ es₂⟩⟩ conv) := by
  constructor
  · simp [Handler.analyzeEntry, hfp]
  · intro root es₁ es₂
    cases he : e.result with
    | none => simp [Analysis.iter, List.filterMap_append, List.filterMap_cons, he]
    | some r =>
      simp [Analysis.iter, List.filterMap_append, List.filterMap_cons, he, hfp]

/-- Claim C10, witness: under a conversion that rejects every path, an entry
that already carries a classification is skipped by the driver and omitted
from the iteration output. -/
theorem C10_unconvertible_path_dropped_witness :
    nullHandler.analyzeEntry noneConv sampleRepo false c10Entry =
      Except.ok c10Entry ∧
    Analysis.iter ⟨⟨"", [] ++ c10Entry :: []⟩⟩ noneConv =
      Analysis.iter ⟨⟨"", [] ++ []⟩⟩ noneConv :=
  ⟨(C10_unconvertible_path_dropped nullHandler noneConv sampleRepo false
      c10Entry rfl).1,
   (C10_unconvertible_path_dropped nullHandler noneConv sampleRepo false
      c10Entry rfl).2 "" [] []⟩

end Gengo
